import Mathlib

/-!
Verification of the capture-the-flag tank game repository
(`ai.py`, `ctf.py`, `game_setup.py`) against its natural-language
specification.  Python functions are shallowly embedded as Lean
definitions; the physics/graphics libraries (pymunk, pygame) are
external and are modelled by explicit parameters (query oracles,
elapsed-time streams).  Entities defined only in the repository's
`gameobjects.py` / `maps.py` (not part of the given sources) are
modelled from the specification and marked as such in doc comments.
-/

/-! ## Tile coordinates and the map data model (`maps.Map`) -/

/-- An integer tile coordinate `(x, y)`, as used by `Ai.find_shortest_path`. -/
abbrev Cell : Type := Int × Int

/-- Modelled from the spec: the map data model (`maps.py` is not among the
given sources).  Width and height are tile counts; `boxAt x y` is the
obstacle code of tile `(x, y)` (0 = empty); `start_positions` are the
spawn descriptors `(x, y, orientation)`; `flag_position` the flag tile. -/
structure Map where
  width : Nat
  height : Nat
  boxAt : Int → Int → Int
  start_positions : List (ℚ × ℚ × ℚ) := []
  flag_position : ℚ × ℚ := (0, 0)

/-- `Ai.max_x = current_map.width - 1` (Python int arithmetic). -/
def Map.max_x (m : Map) : Int := (m.width : Int) - 1

/-- `Ai.max_y = current_map.height - 1`. -/
def Map.max_y (m : Map) : Int := (m.height : Int) - 1

/-- `Ai.in_bounds`: `0 <= coord.x <= self.max_x and 0 <= coord.y <= self.max_y`. -/
def in_bounds (m : Map) (c : Cell) : Bool :=
  decide (0 ≤ c.1 ∧ c.1 ≤ m.max_x ∧ 0 ≤ c.2 ∧ c.2 ≤ m.max_y)

/-- `Ai.filter_tile_neighbors`: a candidate tile passes when it is in
bounds and its obstacle code is 0 or 2. -/
def filter_tile_neighbors (m : Map) (c : Cell) : Bool :=
  if ¬ in_bounds m c then false
  else decide (m.boxAt c.1 c.2 = 0 ∨ m.boxAt c.1 c.2 = 2)

/-- `Ai.get_tile_neighbors`: the four axis-aligned neighbors
`(+1,0), (0,+1), (-1,0), (0,-1)` filtered by `filter_tile_neighbors`. -/
def get_tile_neighbors (m : Map) (c : Cell) : List Cell :=
  [(c.1 + 1, c.2), (c.1, c.2 + 1), (c.1 - 1, c.2), (c.1, c.2 - 1)].filter
    (filter_tile_neighbors m)

/-! ## The breadth-first search of `Ai.find_shortest_path`

The Python loop `while que: ...` terminates because each iteration either
pops the queue or moves fresh in-bounds tiles into `visited`.  The Lean
embedding runs the same loop body structurally on a fuel counter that is
chosen (and proved below) to dominate the loop's decreasing measure, so
the fuelled function computes exactly what the Python loop computes. -/

/-- The in-bounds tiles of a map, as a finite set. -/
def allCells (m : Map) : Finset Cell :=
  Finset.Icc 0 m.max_x ×ˢ Finset.Icc 0 m.max_y

/-- The `for neighbor in self.get_tile_neighbors(current): if neighbor not in
visited` filter of one BFS iteration: the fresh (not yet visited) neighbors. -/
def bfs_children (m : Map) (visited : Finset Cell) (c : Cell) : List Cell :=
  (get_tile_neighbors m c).filter (fun w => decide (w ∉ visited))

/-- One run of the Python `while que:` loop of `Ai.find_shortest_path`,
with the loop state (`paths`, `que`, `visited`) explicit.  `paths` is the
Python dict (`none` = key absent); missing-key lookups (which the loop
invariants rule out) default to `[]`. -/
def find_shortest_path_loop (m : Map) (target : Cell) :
    Nat → (Cell → Option (List Cell)) → List Cell → Finset Cell → List Cell
  | 0, _, _, _ => []
  | _ + 1, _, [], _ => []
  | fuel + 1, paths, current :: rest, visited =>
    if current = target then (paths current).getD []
    else
      find_shortest_path_loop m target fuel
        (fun c => if c ∈ bfs_children m visited current then
            some ((paths current).getD [] ++ [c])
          else paths c)
        (rest ++ bfs_children m visited current)
        (visited ∪ (bfs_children m visited current).toFinset)

/-- `Ai.find_shortest_path`: breadth-first search from the controller's
cached tile `grid_pos` to `target`, returning the recorded path (which
excludes the start tile), or `[]` when the queue empties first.  The fuel
`2 * width * height + 2` strictly exceeds the loop measure
`2 * |allCells \ visited| + |que|` of the initial state, and the measure
decreases on every iteration, so the fuel never runs out. -/
def find_shortest_path (m : Map) (grid_pos target : Cell) : List Cell :=
  find_shortest_path_loop m target (2 * m.width * m.height + 2)
    (fun c => if c = grid_pos then some [] else none)
    [grid_pos] {grid_pos}

/-! ## The passable-tile graph -/

/-- The edge relation of the passable-tile graph explored by the BFS:
`b` is one of the four axis-aligned neighbors of `a` that is in bounds
with obstacle code 0 or 2. -/
def bfs_edge (m : Map) (a b : Cell) : Prop :=
  b ∈ get_tile_neighbors m a

instance (m : Map) (a b : Cell) : Decidable (bfs_edge m a b) :=
  inferInstanceAs (Decidable (b ∈ get_tile_neighbors m a))

/-- A kernel-reducible decision procedure for chains of `bfs_edge` steps
(Mathlib's `List.decidableChain` is tactic-built and does not reduce). -/
def decideChain (m : Map) : (a : Cell) → (l : List Cell) →
    Decidable (List.Chain (bfs_edge m) a l)
  | _, [] => isTrue List.Chain.nil
  | a, b :: l =>
    match inferInstanceAs (Decidable (bfs_edge m a b)), decideChain m b l with
    | isTrue h1, isTrue h2 => isTrue (List.Chain.cons h1 h2)
    | isFalse h1, _ => isFalse (fun h => h1 (List.chain_cons.mp h).1)
    | _, isFalse h2 => isFalse (fun h => h2 (List.chain_cons.mp h).2)

instance (m : Map) (a : Cell) (l : List Cell) :
    Decidable (List.Chain (bfs_edge m) a l) := decideChain m a l

/-- `ValidPath m s t p`: `p` is the tile sequence of a 4-directional walk
from `s` to `t` in the passable-tile graph, excluding `s` itself
(`p = []` exactly when the walk is trivial and `t = s`). -/
def ValidPath (m : Map) (s t : Cell) (p : List Cell) : Prop :=
  List.Chain (bfs_edge m) s p ∧ (s :: p).getLast (List.cons_ne_nil s p) = t

instance (m : Map) (s t : Cell) (p : List Cell) : Decidable (ValidPath m s t p) :=
  inferInstanceAs (Decidable (List.Chain (bfs_edge m) s p ∧
    (s :: p).getLast (List.cons_ne_nil s p) = t))

/-! ### Basic facts about the passable-tile graph -/

lemma edge_passable {m : Map} {a b : Cell} (h : bfs_edge m a b) :
    filter_tile_neighbors m b = true := by
  unfold bfs_edge get_tile_neighbors at h
  exact (List.mem_filter.mp h).2

lemma passable_in_bounds {m : Map} {b : Cell}
    (h : filter_tile_neighbors m b = true) : in_bounds m b = true := by
  unfold filter_tile_neighbors at h
  by_cases hb : in_bounds m b
  · exact hb
  · simp [hb] at h

lemma in_bounds_mem_allCells {m : Map} {b : Cell} (h : in_bounds m b = true) :
    b ∈ allCells m := by
  unfold in_bounds at h
  rw [decide_eq_true_eq] at h
  obtain ⟨h1, h2, h3, h4⟩ := h
  unfold allCells
  rw [Finset.mem_product]
  exact ⟨Finset.mem_Icc.mpr ⟨h1, h2⟩, Finset.mem_Icc.mpr ⟨h3, h4⟩⟩

lemma allCells_card (m : Map) : (allCells m).card = m.width * m.height := by
  unfold allCells
  rw [Finset.card_product, Int.card_Icc, Int.card_Icc]
  unfold Map.max_x Map.max_y
  simp

lemma valid_path_nil (m : Map) (s : Cell) : ValidPath m s s [] := by
  constructor
  · exact List.Chain.nil
  · rfl

lemma valid_path_nil_eq {m : Map} {s t : Cell} (h : ValidPath m s t []) : t = s := by
  obtain ⟨-, h2⟩ := h
  simpa using h2.symm

lemma chain_snoc_iff {R : Cell → Cell → Prop} {w : Cell} :
    ∀ {s : Cell} {p : List Cell},
      List.Chain R s (p ++ [w]) ↔
        List.Chain R s p ∧ R ((s :: p).getLast (List.cons_ne_nil s p)) w := by
  intro s p
  induction p generalizing s with
  | nil => simp [List.chain_singleton]
  | cons b l ih =>
    simp only [List.cons_append, List.chain_cons, ih, List.getLast_cons_cons]
    tauto

lemma getLast_cons_append_singleton (s w : Cell) (p : List Cell) :
    ((s :: p) ++ [w]).getLast (by simp) = w :=
  List.getLast_append_singleton (s :: p)

lemma valid_path_snoc {m : Map} {s u w : Cell} {p : List Cell}
    (h : ValidPath m s u p) (e : bfs_edge m u w) : ValidPath m s w (p ++ [w]) := by
  obtain ⟨hc, hl⟩ := h
  subst hl
  refine ⟨chain_snoc_iff.mpr ⟨hc, e⟩, ?_⟩
  have h1 : s :: (p ++ [w]) = (s :: p) ++ [w] := by simp
  rw [List.getLast_congr _ _ h1]
  exact getLast_cons_append_singleton s w p

lemma valid_path_concat_decomp {m : Map} {s w : Cell} {q : List Cell}
    (h : ValidPath m s w q) (hne : q ≠ []) :
    ∃ q₁, q = q₁ ++ [w] ∧
      ValidPath m s ((s :: q₁).getLast (List.cons_ne_nil s q₁)) q₁ ∧
      bfs_edge m ((s :: q₁).getLast (List.cons_ne_nil s q₁)) w := by
  obtain ⟨hc, hl⟩ := h
  rcases List.eq_nil_or_concat q with rfl | ⟨q₁, b, hq⟩
  · exact absurd rfl hne
  · rw [List.concat_eq_append] at hq
    subst hq
    have h1 : s :: (q₁ ++ [b]) = (s :: q₁) ++ [b] := by simp
    have hb : b = w := by
      rw [List.getLast_congr _ _ h1] at hl
      rw [← hl]
      exact (getLast_cons_append_singleton s b q₁).symm
    subst hb
    obtain ⟨hc1, he⟩ := chain_snoc_iff.mp hc
    exact ⟨q₁, rfl, ⟨hc1, rfl⟩, he⟩

lemma valid_path_passable {m : Map} {s t : Cell} {p : List Cell}
    (h : ValidPath m s t p) : ∀ x ∈ p, filter_tile_neighbors m x = true := by
  obtain ⟨hc, -⟩ := h
  clear t
  induction p generalizing s with
  | nil => intro x hx; simp at hx
  | cons b l ih =>
    rw [List.chain_cons] at hc
    intro x hx
    rcases List.mem_cons.mp hx with rfl | hx
    · exact edge_passable hc.1
    · exact ih hc.2 x hx

/-! ### The BFS loop invariant -/

/-- Length of the path recorded for `v` (0 when no entry exists). -/
def plen (paths : Cell → Option (List Cell)) (v : Cell) : Nat :=
  ((paths v).getD []).length

lemma mem_bfs_children {m : Map} {visited : Finset Cell} {c w : Cell} :
    w ∈ bfs_children m visited c ↔ bfs_edge m c w ∧ w ∉ visited := by
  unfold bfs_children bfs_edge
  simp [List.mem_filter]

lemma bfs_children_nodup (m : Map) (visited : Finset Cell) (c : Cell) :
    (bfs_children m visited c).Nodup := by
  apply List.Nodup.filter
  unfold get_tile_neighbors
  apply List.Nodup.filter
  obtain ⟨x, y⟩ := c
  simp only [List.nodup_cons, List.mem_cons, List.mem_singleton, List.not_mem_nil,
    or_false, not_or, List.nodup_nil, and_true, Prod.mk.injEq, not_and, not_false_iff,
    ne_eq, true_and, and_imp]
  omega

lemma bfs_children_sub_allCells {m : Map} {visited : Finset Cell} {c w : Cell}
    (h : w ∈ bfs_children m visited c) : w ∈ allCells m :=
  in_bounds_mem_allCells (passable_in_bounds (edge_passable (mem_bfs_children.mp h).1))

/-- The invariant of the `while que:` loop of `Ai.find_shortest_path`. -/
structure BfsInv (m : Map) (s target : Cell) (paths : Cell → Option (List Cell))
    (que : List Cell) (visited : Finset Cell) : Prop where
  start_mem : s ∈ visited
  valid : ∀ v ∈ visited, ∃ p, paths v = some p ∧ ValidPath m s v p ∧ s ∉ p ∧
    ∀ q, ValidPath m s v q → p.length ≤ q.length
  que_sub : ∀ v ∈ que, v ∈ visited
  sorted : que.Pairwise (fun a b => plen paths a ≤ plen paths b)
  close : ∀ a ∈ que, ∀ b ∈ que, plen paths b ≤ plen paths a + 1
  closed : ∀ u ∈ visited, u ∉ que → ∀ w, bfs_edge m u w → w ∈ visited
  frontier : ∀ w q, ValidPath m s w q → (∀ u ∈ que, q.length < plen paths u) →
    w ∈ visited ∧ w ∉ que
  pending : target ∈ visited → target ∈ que

/-- A visited set that is closed under edges and contains the start
contains every vertex reachable from the start. -/
lemma visited_closure {m : Map} {visited : Finset Cell}
    (hclosed : ∀ u ∈ visited, ∀ w, bfs_edge m u w → w ∈ visited) :
    ∀ {s : Cell}, s ∈ visited → ∀ w (q : List Cell), ValidPath m s w q → w ∈ visited := by
  intro s hs w q hq
  induction q generalizing s with
  | nil => rw [valid_path_nil_eq hq]; exact hs
  | cons b l ih =>
    obtain ⟨hc, hl⟩ := hq
    rw [List.chain_cons] at hc
    exact ih (hclosed s hs b hc.1) ⟨hc.2, by simpa using hl⟩

/-- The invariant holds at loop entry. -/
lemma bfsInv_init (m : Map) (s target : Cell) :
    BfsInv m s target (fun c => if c = s then some [] else none) [s] {s} := by
  constructor
  · exact Finset.mem_singleton_self s
  · intro v hv
    rw [Finset.mem_singleton] at hv
    subst hv
    exact ⟨[], by simp, valid_path_nil m v, by simp, fun q _ => Nat.zero_le _⟩
  · intro v hv
    rw [List.mem_singleton] at hv
    subst hv
    exact Finset.mem_singleton_self v
  · exact List.pairwise_singleton _ s
  · intro a ha b hb
    rw [List.mem_singleton] at ha hb
    subst ha; subst hb
    omega
  · intro u hu hq
    rw [Finset.mem_singleton] at hu
    subst hu
    exact absurd (List.mem_singleton_self u) hq
  · intro w q hq hlen
    have := hlen s (List.mem_singleton_self s)
    simp [plen] at this
  · intro h
    rw [Finset.mem_singleton] at h
    subst h
    exact List.mem_singleton_self target

/-- One non-returning iteration of the BFS loop preserves the invariant. -/
lemma bfsInv_step {m : Map} {s target current : Cell} {rest : List Cell}
    {paths : Cell → Option (List Cell)} {visited : Finset Cell}
    (inv : BfsInv m s target paths (current :: rest) visited)
    (hct : current ≠ target) :
    BfsInv m s target
      (fun c => if c ∈ bfs_children m visited current then
          some ((paths current).getD [] ++ [c])
        else paths c)
      (rest ++ bfs_children m visited current)
      (visited ∪ (bfs_children m visited current).toFinset) := by
  set C := bfs_children m visited current with hC
  set paths' : Cell → Option (List Cell) := fun c =>
    if c ∈ C then some ((paths current).getD [] ++ [c]) else paths c with hpaths'
  have h_cur_vis : current ∈ visited := inv.que_sub current (List.mem_cons_self _ _)
  obtain ⟨pc, hpc, hpc_val, hpc_nos, hpc_min⟩ := inv.valid current h_cur_vis
  have h_getD : (paths current).getD [] = pc := by rw [hpc]; rfl
  have h_plen_cur : plen paths current = pc.length := by unfold plen; rw [hpc]; rfl
  have hC_not_vis : ∀ w ∈ C, w ∉ visited := fun w hw => (mem_bfs_children.mp hw).2
  have hC_edge : ∀ w ∈ C, bfs_edge m current w := fun w hw => (mem_bfs_children.mp hw).1
  have hC_ne_s : ∀ w ∈ C, w ≠ s := by
    intro w hw he
    exact hC_not_vis w hw (he ▸ inv.start_mem)
  have h_rest_vis : ∀ a ∈ rest, a ∈ visited :=
    fun a ha => inv.que_sub a (List.mem_cons_of_mem _ ha)
  have h_rest_not_C : ∀ a ∈ rest, a ∉ C :=
    fun a ha hac => hC_not_vis a hac (h_rest_vis a ha)
  have h_vis_not_C : ∀ a ∈ visited, a ∉ C := fun a ha hac => hC_not_vis a hac ha
  have hpaths'_old : ∀ c ∉ C, paths' c = paths c := by
    intro c hc
    simp only [hpaths', if_neg hc]
  have hplen'_old : ∀ c ∉ C, plen paths' c = plen paths c := by
    intro c hc
    unfold plen
    rw [hpaths'_old c hc]
  have hpaths'_C : ∀ w ∈ C, paths' w = some (pc ++ [w]) := by
    intro w hw
    simp only [hpaths', if_pos hw, h_getD]
  have hplen'_C : ∀ w ∈ C, plen paths' w = pc.length + 1 := by
    intro w hw
    unfold plen
    rw [hpaths'_C w hw]
    simp
  have h_du_le : ∀ a ∈ rest, pc.length ≤ plen paths a := by
    intro a ha
    have := (List.pairwise_cons.mp inv.sorted).1 a ha
    rwa [h_plen_cur] at this
  have h_le_close : ∀ b ∈ current :: rest, plen paths b ≤ pc.length + 1 := by
    intro b hb
    have := inv.close current (List.mem_cons_self _ _) b hb
    rwa [h_plen_cur] at this
  -- any vertex admitting a walk no longer than the popped path is already visited
  have step_reach : ∀ w (q : List Cell), ValidPath m s w q → q.length ≤ pc.length →
      w ∈ visited := by
    intro w q hq hlen
    rcases eq_or_ne q [] with rfl | hne
    · rw [valid_path_nil_eq hq]
      exact inv.start_mem
    · obtain ⟨q₁, rfl, hq₁, he⟩ := valid_path_concat_decomp hq hne
      have hq₁len : q₁.length < pc.length := by
        rw [List.length_append, List.length_singleton] at hlen
        omega
      have hfr := inv.frontier _ q₁ hq₁ (by
        intro v hv
        rcases List.mem_cons.mp hv with rfl | hv
        · rwa [h_plen_cur]
        · exact lt_of_lt_of_le hq₁len (h_du_le v hv))
      exact inv.closed _ hfr.1 hfr.2 w he
  have h_valid' : ∀ v ∈ visited ∪ C.toFinset, ∃ p, paths' v = some p ∧
      ValidPath m s v p ∧ s ∉ p ∧ ∀ q, ValidPath m s v q → p.length ≤ q.length := by
    intro v hv
    rcases Finset.mem_union.mp hv with hv | hv
    · rw [hpaths'_old v (h_vis_not_C v hv)]
      exact inv.valid v hv
    · have hvC : v ∈ C := List.mem_toFinset.mp hv
      refine ⟨pc ++ [v], hpaths'_C v hvC, valid_path_snoc hpc_val (hC_edge v hvC), ?_, ?_⟩
      · intro hs
        rcases List.mem_append.mp hs with hs | hs
        · exact hpc_nos hs
        · exact hC_ne_s v hvC (List.mem_singleton.mp hs).symm
      · intro q hq
        by_contra hlt
        push_neg at hlt
        rw [List.length_append, List.length_singleton] at hlt
        exact hC_not_vis v hvC (step_reach v q hq (by omega))
  constructor
  · exact Finset.mem_union_left _ inv.start_mem
  · exact h_valid'
  · intro v hv
    rcases List.mem_append.mp hv with hv | hv
    · exact Finset.mem_union_left _ (h_rest_vis v hv)
    · exact Finset.mem_union_right _ (List.mem_toFinset.mpr hv)
  · rw [List.pairwise_append]
    refine ⟨?_, ?_, ?_⟩
    · apply List.Pairwise.imp_of_mem ?_ (List.pairwise_cons.mp inv.sorted).2
      intro a b ha hb hr
      rwa [hplen'_old a (h_rest_not_C a ha), hplen'_old b (h_rest_not_C b hb)]
    · apply List.pairwise_of_forall_mem_list
      intro a ha b hb
      rw [hplen'_C a ha, hplen'_C b hb]
    · intro a ha b hb
      rw [hplen'_old a (h_rest_not_C a ha), hplen'_C b hb]
      exact h_le_close a (List.mem_cons_of_mem _ ha)
  · intro a ha b hb
    rcases List.mem_append.mp ha with ha | ha <;> rcases List.mem_append.mp hb with hb | hb
    · rw [hplen'_old a (h_rest_not_C a ha), hplen'_old b (h_rest_not_C b hb)]
      exact inv.close a (List.mem_cons_of_mem _ ha) b (List.mem_cons_of_mem _ hb)
    · rw [hplen'_old a (h_rest_not_C a ha), hplen'_C b hb]
      have := h_du_le a ha
      omega
    · rw [hplen'_C a ha, hplen'_old b (h_rest_not_C b hb)]
      have := h_le_close b (List.mem_cons_of_mem _ hb)
      omega
    · rw [hplen'_C a ha, hplen'_C b hb]
      omega
  · intro u hu hq w he
    have huC : u ∉ C := by
      intro huC
      exact hq (List.mem_append.mpr (Or.inr huC))
    rcases Finset.mem_union.mp hu with hu | hu
    · rcases eq_or_ne u current with rfl | hne
      · by_cases hwv : w ∈ visited
        · exact Finset.mem_union_left _ hwv
        · exact Finset.mem_union_right _
            (List.mem_toFinset.mpr (mem_bfs_children.mpr ⟨he, hwv⟩))
      · have hu_old : u ∉ current :: rest := by
          intro hmem
          rcases List.mem_cons.mp hmem with rfl | hmem
          · exact hne rfl
          · exact hq (List.mem_append.mpr (Or.inl hmem))
        exact Finset.mem_union_left _ (inv.closed u hu hu_old w he)
    · exact absurd (List.mem_toFinset.mp hu) huC
  · intro w q hq hlen
    have hw_not_que : w ∉ rest ++ C := by
      intro hwq
      have hw_vis : w ∈ visited ∪ C.toFinset := by
        rcases List.mem_append.mp hwq with hw | hw
        · exact Finset.mem_union_left _ (h_rest_vis w hw)
        · exact Finset.mem_union_right _ (List.mem_toFinset.mpr hw)
      obtain ⟨p, hp, -, -, hmin⟩ := h_valid' w hw_vis
      have h1 : plen paths' w = p.length := by unfold plen; rw [hp]; rfl
      have h2 := hlen w hwq
      have h3 := hmin q hq
      omega
    refine ⟨?_, hw_not_que⟩
    cases hque' : rest ++ C with
    | nil =>
      have hclosed_all : ∀ u ∈ visited ∪ C.toFinset, ∀ w', bfs_edge m u w' →
          w' ∈ visited ∪ C.toFinset := by
        intro u hu w' he
        rcases Finset.mem_union.mp hu with hu | hu
        · rcases eq_or_ne u current with rfl | hne
          · by_cases hwv : w' ∈ visited
            · exact Finset.mem_union_left _ hwv
            · exact Finset.mem_union_right _
                (List.mem_toFinset.mpr (mem_bfs_children.mpr ⟨he, hwv⟩))
          · have hu_old : u ∉ current :: rest := by
              intro hmem
              rcases List.mem_cons.mp hmem with rfl | hmem
              · exact hne rfl
              · have : u ∈ rest ++ C := List.mem_append.mpr (Or.inl hmem)
                rw [hque'] at this
                simp at this
            exact Finset.mem_union_left _ (inv.closed u hu hu_old w' he)
        · have huC : u ∈ C := List.mem_toFinset.mp hu
          have : u ∈ rest ++ C := List.mem_append.mpr (Or.inr huC)
          rw [hque'] at this
          simp at this
      exact visited_closure hclosed_all (Finset.mem_union_left _ inv.start_mem) w q hq
    | cons u₀ tl =>
      have hu₀ : u₀ ∈ rest ++ C := by rw [hque']; exact List.mem_cons_self _ _
      have hb1 : q.length < plen paths' u₀ := hlen u₀ hu₀
      have hb2 : plen paths' u₀ ≤ pc.length + 1 := by
        rcases List.mem_append.mp hu₀ with hu | hu
        · rw [hplen'_old u₀ (h_rest_not_C u₀ hu)]
          exact h_le_close u₀ (List.mem_cons_of_mem _ hu)
        · rw [hplen'_C u₀ hu]
      exact Finset.mem_union_left _ (step_reach w q hq (by omega))
  · intro ht
    rcases Finset.mem_union.mp ht with ht | ht
    · have := inv.pending ht
      rcases List.mem_cons.mp this with rfl | hmem
      · exact absurd rfl hct
      · exact List.mem_append.mpr (Or.inl hmem)
    · exact List.mem_append.mpr (Or.inr (List.mem_toFinset.mp ht))

/-- Correctness of the fuelled BFS loop: with the invariant and enough fuel,
the loop returns a shortest valid path to the target (never containing the
start), and `[]` when the target is unreachable. -/
lemma find_loop_correct (m : Map) (s target : Cell) :
    ∀ (fuel : Nat) (paths : Cell → Option (List Cell)) (que : List Cell)
      (visited : Finset Cell),
    BfsInv m s target paths que visited →
    2 * (allCells m \ visited).card + que.length < fuel →
    (∀ q, ValidPath m s target q →
      ValidPath m s target (find_shortest_path_loop m target fuel paths que visited) ∧
      s ∉ find_shortest_path_loop m target fuel paths que visited ∧
      (find_shortest_path_loop m target fuel paths que visited).length ≤ q.length) ∧
    ((∀ q, ¬ ValidPath m s target q) →
      find_shortest_path_loop m target fuel paths que visited = []) := by
  intro fuel
  induction fuel with
  | zero =>
    intro paths que visited _ hfuel
    omega
  | succ fuel ih =>
    intro paths que visited inv hfuel
    match que with
    | [] =>
      constructor
      · intro q hq
        exfalso
        have hfr := inv.frontier target q hq (by intro u hu; simp at hu)
        have := inv.pending hfr.1
        simp at this
      · intro _
        rfl
    | current :: rest =>
      by_cases hct : current = target
      · subst hct
        have h_cur_vis : current ∈ visited := inv.que_sub current (List.mem_cons_self _ _)
        obtain ⟨p, hp, hval, hnos, hmin⟩ := inv.valid current h_cur_vis
        have hloop : find_shortest_path_loop m current (fuel + 1) paths
            (current :: rest) visited = p := by
          simp only [find_shortest_path_loop, if_pos rfl]
          rw [hp]
          rfl
        rw [hloop]
        constructor
        · intro q hq
          exact ⟨hval, hnos, hmin q hq⟩
        · intro hnone
          exact absurd hval (hnone p)
      · have hloop : find_shortest_path_loop m target (fuel + 1) paths
            (current :: rest) visited =
            find_shortest_path_loop m target fuel
              (fun c => if c ∈ bfs_children m visited current then
                  some ((paths current).getD [] ++ [c])
                else paths c)
              (rest ++ bfs_children m visited current)
              (visited ∪ (bfs_children m visited current).toFinset) := by
          simp only [find_shortest_path_loop, if_neg hct]
        rw [hloop]
        have inv' := bfsInv_step inv hct
        apply ih _ _ _ inv'
        -- the loop measure strictly decreases
        rcases eq_or_ne (bfs_children m visited current) [] with hCnil | hCne
        · rw [hCnil]
          simp only [List.toFinset_nil, Finset.union_empty, List.append_nil]
          simp only [List.length_cons] at hfuel
          omega
        · have hsub : (bfs_children m visited current).toFinset ⊆
              allCells m \ visited := by
            intro x hx
            rw [List.mem_toFinset] at hx
            rw [Finset.mem_sdiff]
            exact ⟨bfs_children_sub_allCells hx, (mem_bfs_children.mp hx).2⟩
          have hcardC : (bfs_children m visited current).toFinset.card =
              (bfs_children m visited current).length :=
            List.toFinset_card_of_nodup (bfs_children_nodup m visited current)
          have hset : allCells m \ (visited ∪ (bfs_children m visited current).toFinset)
              = (allCells m \ visited) \ (bfs_children m visited current).toFinset := by
            ext x
            simp only [Finset.mem_sdiff, Finset.mem_union]
            tauto
          rw [hset, Finset.card_sdiff hsub, hcardC]
          have hlen_pos : 0 < (bfs_children m visited current).length :=
            List.length_pos.mpr hCne
          have hle : (bfs_children m visited current).length ≤
              (allCells m \ visited).card := by
            rw [← hcardC]
            exact Finset.card_le_card hsub
          simp only [List.length_append, List.length_cons] at hfuel ⊢
          omega

/-- Top-level BFS correctness for `Ai.find_shortest_path`. -/
lemma find_shortest_path_correct (m : Map) (s t : Cell) :
    (∀ q, ValidPath m s t q →
      ValidPath m s t (find_shortest_path m s t) ∧
      s ∉ find_shortest_path m s t ∧
      (find_shortest_path m s t).length ≤ q.length) ∧
    ((∀ q, ¬ ValidPath m s t q) → find_shortest_path m s t = []) := by
  unfold find_shortest_path
  apply find_loop_correct m s t _ _ _ _ (bfsInv_init m s t)
  have h1 : (allCells m \ {s}).card ≤ (allCells m).card :=
    Finset.card_le_card (Finset.sdiff_subset)
  rw [allCells_card] at h1
  simp only [List.length_singleton]
  have h2 : 2 * m.width * m.height = 2 * (m.width * m.height) := by ring
  rw [h2]
  omega

/-- Claim C1: for every map obstacle layout and tiles `s` (the controller's
cached tile) and `t` (the objective), `Ai.find_shortest_path` returns a
path whose length equals the true shortest 4-directional path length from
`s` to `t` over the passable-tile graph (it is a valid path and no valid
path is shorter); every tile of the returned sequence is in bounds with
obstacle code 0 or 2; the path excludes the start tile (and is empty when
`s = t`); and when `t` is unreachable from `s` the result is empty. -/
theorem C1_bfs_shortest_path (m : Map) (s t : Cell) :
    (∀ x ∈ find_shortest_path m s t,
      in_bounds m x = true ∧ filter_tile_neighbors m x = true) ∧
    s ∉ find_shortest_path m s t ∧
    (s = t → find_shortest_path m s t = []) ∧
    (∀ q, ValidPath m s t q →
      ValidPath m s t (find_shortest_path m s t) ∧
      (find_shortest_path m s t).length ≤ q.length) ∧
    ((∀ q, ¬ ValidPath m s t q) → find_shortest_path m s t = []) := by
  obtain ⟨hreach, hunreach⟩ := find_shortest_path_correct m s t
  refine ⟨?_, ?_, ?_, ?_, hunreach⟩
  · intro x hx
    by_cases hr : ∃ q, ValidPath m s t q
    · obtain ⟨q, hq⟩ := hr
      have hpass := valid_path_passable (hreach q hq).1 x hx
      exact ⟨passable_in_bounds hpass, hpass⟩
    · push_neg at hr
      rw [hunreach hr] at hx
      simp at hx
  · by_cases hr : ∃ q, ValidPath m s t q
    · obtain ⟨q, hq⟩ := hr
      exact (hreach q hq).2.1
    · push_neg at hr
      rw [hunreach hr]
      simp
  · intro hst
    subst hst
    have h := (hreach [] (valid_path_nil m s)).2.2
    simpa using List.eq_nil_of_length_eq_zero (Nat.le_zero.mp h)
  · intro q hq
    exact ⟨(hreach q hq).1, (hreach q hq).2.2⟩

/-- A concrete 3×3 map with a wall on column 1 (open at the top row). -/
def sampleMap : Map :=
  { width := 3, height := 3, boxAt := fun x y => if x = 1 ∧ y ≠ 2 then 1 else 0 }

/-- Witness for C1 at a concrete map: the tile `(2,0)` is reachable from
`(0,0)` (a valid 6-step detour exists), and the BFS result is itself a
valid path of length at most 6. -/
theorem C1_bfs_shortest_path_witness :
    ValidPath sampleMap (0, 0) (2, 0) [(0, 1), (0, 2), (1, 2), (2, 2), (2, 1), (2, 0)] ∧
    (ValidPath sampleMap (0, 0) (2, 0) (find_shortest_path sampleMap (0, 0) (2, 0)) ∧
      (find_shortest_path sampleMap (0, 0) (2, 0)).length ≤
        ([(0, 1), (0, 2), (1, 2), (2, 2), (2, 1), (2, 0)] : List Cell).length) :=
  ⟨by decide,
    (C1_bfs_shortest_path sampleMap (0, 0) (2, 0)).2.2.2.1
      [(0, 1), (0, 2), (1, 2), (2, 2), (2, 1), (2, 0)] (by decide)⟩

/-! ## `periodic_difference_of_angles` (ai.py) -/

/-- Python float modulo `a % msize` for `msize > 0`:
`a - msize * floor (a / msize)`. -/
noncomputable def python_mod (a msize : ℝ) : ℝ := a - msize * ⌊a / msize⌋

/-- `periodic_difference_of_angles`:
`(angle1 % (2 * math.pi)) - (angle2 % (2 * math.pi))`. -/
noncomputable def periodic_difference_of_angles (angle1 angle2 : ℝ) : ℝ :=
  python_mod angle1 (2 * Real.pi) - python_mod angle2 (2 * Real.pi)

/-- The property claimed by the spec for `periodic_difference_of_angles`:
the result is congruent to `angle1 - angle2` modulo a full turn and has
minimal absolute magnitude among all such values. -/
def shortest_signed_difference (a1 a2 r : ℝ) : Prop :=
  (∃ k : ℤ, r = (a1 - a2) + 2 * Real.pi * k) ∧
  ∀ x : ℝ, (∃ k : ℤ, x = (a1 - a2) + 2 * Real.pi * k) → |r| ≤ |x|

lemma python_mod_eq_fract (a : ℝ) {msize : ℝ} (hm : msize ≠ 0) :
    python_mod a msize = msize * Int.fract (a / msize) := by
  unfold python_mod Int.fract
  rw [mul_sub, mul_div_cancel₀ a hm]

lemma python_mod_nonneg (a : ℝ) {msize : ℝ} (hm : 0 < msize) :
    0 ≤ python_mod a msize := by
  rw [python_mod_eq_fract a hm.ne']
  exact mul_nonneg hm.le (Int.fract_nonneg _)

lemma python_mod_lt (a : ℝ) {msize : ℝ} (hm : 0 < msize) :
    python_mod a msize < msize := by
  rw [python_mod_eq_fract a hm.ne']
  exact mul_lt_of_lt_one_right hm (Int.fract_lt_one _)

/-- Claim C7 (amended): `periodic_difference_of_angles` returns a value
congruent to `angle1 - angle2` modulo a full turn, with absolute magnitude
strictly below a full turn — but not necessarily the minimal-magnitude
representative (see the counterexample). -/
theorem C7_periodic_difference_congruent (angle1 angle2 : ℝ) :
    (∃ k : ℤ, periodic_difference_of_angles angle1 angle2 =
      (angle1 - angle2) + 2 * Real.pi * k) ∧
    |periodic_difference_of_angles angle1 angle2| < 2 * Real.pi := by
  have hpi : (0 : ℝ) < 2 * Real.pi := by positivity
  constructor
  · refine ⟨⌊angle2 / (2 * Real.pi)⌋ - ⌊angle1 / (2 * Real.pi)⌋, ?_⟩
    unfold periodic_difference_of_angles python_mod
    push_cast
    ring
  · have h1 := python_mod_nonneg angle1 hpi
    have h2 := python_mod_nonneg angle2 hpi
    have h3 := python_mod_lt angle1 hpi
    have h4 := python_mod_lt angle2 hpi
    unfold periodic_difference_of_angles
    rw [abs_sub_lt_iff]
    constructor <;> linarith

/-- Counterexample to Claim C7 as stated: at `angle1 = 0`,
`angle2 = -π/2`, the function returns `-3π/2`, which is congruent to
`π/2` but not of minimal absolute magnitude (`π/2` itself is smaller), so
the result is not the shortest signed difference. -/
theorem C7_counterexample :
    periodic_difference_of_angles 0 (-(Real.pi / 2)) = -(3 * Real.pi / 2) ∧
    ¬ shortest_signed_difference 0 (-(Real.pi / 2))
      (periodic_difference_of_angles 0 (-(Real.pi / 2))) := by
  have hpi : (0 : ℝ) < Real.pi := Real.pi_pos
  have hval : periodic_difference_of_angles 0 (-(Real.pi / 2)) = -(3 * Real.pi / 2) := by
    unfold periodic_difference_of_angles python_mod
    have e1 : (0 : ℝ) / (2 * Real.pi) = 0 := by
      rw [zero_div]
    have e2 : -(Real.pi / 2) / (2 * Real.pi) = -(1 / 4 : ℝ) := by
      field_simp
      ring
    rw [e1, e2]
    have f1 : ⌊(0 : ℝ)⌋ = 0 := Int.floor_zero
    have f2 : ⌊(-(1 / 4 : ℝ))⌋ = -1 := by
      rw [Int.floor_eq_iff]
      norm_num
    rw [f1, f2]
    push_cast
    ring
  refine ⟨hval, ?_⟩
  rintro ⟨-, hmin⟩
  have hx : ∃ k : ℤ, (Real.pi / 2 : ℝ) = (0 - -(Real.pi / 2)) + 2 * Real.pi * k :=
    ⟨0, by push_cast; ring⟩
  have h := hmin (Real.pi / 2) hx
  rw [hval] at h
  rw [abs_of_nonpos (by linarith), abs_of_nonneg (by linarith)] at h
  linarith

/-! ## The main-loop tick cadence (ctf.py `main` / `update`) -/

/-- The loop-carried state of `ctf.main`: the `skip_update` counter and the
`update_dt` elapsed-time accumulator (Python ints/floats; `skip_update`
only ever holds 0, 1 or 2). -/
structure MainLoopState where
  skip_update : Int
  update_dt : ℝ

/-- The observable per-tick effects of one `update(...)` call: whether the
entities' logical update ran (and with which accumulated elapsed time),
the time the physics space was stepped by, and the time passed to every
entity's post-update hook. -/
structure TickEffects where
  logical : Option ℝ
  physics_dt : ℝ
  post_dt : ℝ

/-- One iteration of the `while running:` loop of `ctf.main` (the timing
skeleton): accumulate `update_dt += dt`, call
`update(..., skip_update <= 0, dt, update_dt, ...)` — whose body runs
`obj.update(update_dt)` only when `do_update`, then `space.step(dt)` and
`obj.post_update(dt)` — and finally reset or decrement `skip_update`. -/
def main_tick (st : MainLoopState) (dt : ℝ) : MainLoopState × TickEffects :=
  let update_dt := st.update_dt + dt
  let do_update := st.skip_update ≤ 0
  let effects : TickEffects :=
    { logical := if do_update then some update_dt else none
      physics_dt := dt
      post_dt := dt }
  if do_update then
    ({ skip_update := 2, update_dt := 0 }, effects)
  else
    ({ skip_update := st.skip_update - 1, update_dt := update_dt }, effects)

/-- Run the main loop for a list of measured tick durations, collecting
the per-tick effects. -/
def main_ticks (st : MainLoopState) : List ℝ → MainLoopState × List TickEffects
  | [] => (st, [])
  | dt :: dts =>
    let (st', eff) := main_tick st dt
    let (st'', effs) := main_ticks st' dts
    (st'', eff :: effs)

/-- The initial timing state of `ctf.main`: `skip_update = 0`,
`update_dt = 0`. -/
def main_loop_init : MainLoopState := { skip_update := 0, update_dt := 0 }

/-- Claim C4: across any 3 consecutive ticks (from any state the loop can
be in: `skip_update` is 0, 1 or 2), the entities' logical update runs on
exactly one tick, receiving the elapsed time accumulated since the
previous logical update, and the accumulator is reset to zero at that
tick; the physics step and the post-update hook run on every one of the 3
ticks with that tick's own elapsed time. -/
theorem C4_update_cadence (st : MainLoopState) (d1 d2 d3 : ℝ)
    (h : st.skip_update = 0 ∨ st.skip_update = 1 ∨ st.skip_update = 2) :
    ∃ e1 e2 e3 st',
      main_ticks st [d1, d2, d3] = (st', [e1, e2, e3]) ∧
      ([e1, e2, e3].countP (fun e => e.logical.isSome) = 1) ∧
      e1.physics_dt = d1 ∧ e2.physics_dt = d2 ∧ e3.physics_dt = d3 ∧
      e1.post_dt = d1 ∧ e2.post_dt = d2 ∧ e3.post_dt = d3 ∧
      ((st.skip_update = 0 →
        e1.logical = some (st.update_dt + d1) ∧ e2.logical = none ∧
          e3.logical = none) ∧
      (st.skip_update = 1 →
        e1.logical = none ∧ e2.logical = some (st.update_dt + d1 + d2) ∧
          e3.logical = none) ∧
      (st.skip_update = 2 →
        e1.logical = none ∧ e2.logical = none ∧
          e3.logical = some (st.update_dt + d1 + d2 + d3))) ∧
      st'.update_dt = (if st.skip_update = 2 then 0 else
        if st.skip_update = 1 then d3 else d2 + d3) := by
  obtain ⟨sk, ud⟩ := st
  rcases h with h | h | h <;> simp only at h <;> subst h <;>
    refine ⟨_, _, _, _, rfl, ?_, ?_, ?_, ?_, ?_, ?_, ?_, ?_, ?_⟩ <;>
    simp [main_ticks, main_tick]

/-- The states quantified over in C4 are exactly the reachable ones:
`main` starts with `skip_update = 0` and every tick leaves the counter in
`{0, 1, 2}`. -/
lemma main_tick_skip_range (st : MainLoopState) (dt : ℝ)
    (h : st.skip_update = 0 ∨ st.skip_update = 1 ∨ st.skip_update = 2) :
    (main_tick st dt).1.skip_update = 0 ∨ (main_tick st dt).1.skip_update = 1 ∨
      (main_tick st dt).1.skip_update = 2 := by
  rcases h with h | h | h <;> simp [main_tick, h]

/-- Witness for C4: from the loop's initial state with three ticks of one
second each, exactly one of the three ticks runs the logical update. -/
theorem C4_update_cadence_witness :
    main_loop_init.skip_update = 0 ∧
    ∃ e1 e2 e3 st',
      main_ticks main_loop_init [(1 : ℝ), 1, 1] = (st', [e1, e2, e3]) ∧
      [e1, e2, e3].countP (fun e => e.logical.isSome) = 1 := by
  refine ⟨rfl, ?_⟩
  obtain ⟨e1, e2, e3, st', h1, h2, -⟩ :=
    C4_update_cadence main_loop_init 1 1 1 (Or.inl rfl)
  exact ⟨e1, e2, e3, st', h1, h2⟩

/-! ## The game-entity model (spec-modelled: `gameobjects.py` is not among
the given sources) and the win handling of `ctf.update` -/

/-- Python `int()` truncation toward zero, as applied to tile coordinates. -/
def python_int (q : ℚ) : Int := if 0 ≤ q then ⌊q⌋ else ⌈q⌉

/-- The tile of a continuous position (both axes truncated). -/
def tile_of (p : ℚ × ℚ) : Cell := (python_int p.1, python_int p.2)

/-- Modelled from the spec: the flag — a position plus its fixed
home/respawn location (named `Flag` in the source; `GameFlag` here since
Lean's library already takes the name `Flag`). -/
structure GameFlag where
  pos : ℚ × ℚ
  start : ℚ × ℚ

/-- Modelled from the spec: `Flag.respawn` resets the flag's position to
the arena's configured flag location. -/
def GameFlag.respawn (f : GameFlag) : GameFlag := { f with pos := f.start }

/-- Modelled from the spec: a tank — home spawn position, current
position, whether it carries the flag (`tank.flag is not None`), and the
linear/turning intent state consumed by its logical update. -/
structure Tank where
  start_position : ℚ × ℚ
  pos : ℚ × ℚ
  carrying_flag : Bool
  accel : Int
  turn : Int

/-- Modelled from the spec: movement commands mutate intent state only. -/
def Tank.accelerate (t : Tank) : Tank := { t with accel := 1 }

/-- Modelled from the spec: reverse thrust intent. -/
def Tank.decelerate (t : Tank) : Tank := { t with accel := -1 }

/-- Modelled from the spec: begin turning left. -/
def Tank.turn_left (t : Tank) : Tank := { t with turn := 1 }

/-- Modelled from the spec: begin turning right. -/
def Tank.turn_right (t : Tank) : Tank := { t with turn := -1 }

/-- Modelled from the spec: stop linear thrust. -/
def Tank.stop_moving (t : Tank) : Tank := { t with accel := 0 }

/-- Modelled from the spec: stop turning. -/
def Tank.stop_turning (t : Tank) : Tank := { t with turn := 0 }

/-- Modelled from the spec: `Tank.has_won` is true exactly when the tank
carries the flag and its current tile equals its home tile. -/
def Tank.has_won (t : Tank) : Bool :=
  t.carrying_flag && decide (tile_of t.pos = tile_of t.start_position)

/-- Modelled from the spec: `Tank.respawn` resets the tank to its spawn
position with no flag carried and zeroed intent state. -/
def Tank.respawn (t : Tank) : Tank :=
  { t with pos := t.start_position, carrying_flag := false, accel := 0, turn := 0 }

/-- Modelled from the spec: `Tank.try_grab_flag` attaches the flag when
the tank is within grab range (the range test is an external parameter,
its numeric value being internal to `gameobjects.py`) and the tank is not
already carrying it. -/
def Tank.try_grab_flag (in_range : ℚ × ℚ → ℚ × ℚ → Bool) (t : Tank) (f : GameFlag) : Tank :=
  if !t.carrying_flag && in_range t.pos f.pos then { t with carrying_flag := true } else t

/-- `ctf.reset_game`: respawn every tank and respawn the flag. -/
def reset_game (tanks : List Tank) (flag : GameFlag) : List Tank × GameFlag :=
  (tanks.map Tank.respawn, flag.respawn)

/-- `ctf.print_score`: one line per tracked tank, in tank order, showing
the 1-based player position and current score. -/
def print_score (scores : List Nat) : List String :=
  scores.enum.map (fun p => "Player " ++ toString (p.1 + 1) ++ ": " ++ toString p.2)

/-- The body of the `for tank in tanks:` loop at the end of `ctf.update`,
for the tank at index `i`: attempt a flag grab, then check the win
condition; on a win increment that tank's score, append the score
printout, and reset the round. -/
def win_check_step (in_range : ℚ × ℚ → ℚ × ℚ → Bool) (i : Nat)
    (st : List Tank × GameFlag × List Nat × List String) :
    List Tank × GameFlag × List Nat × List String :=
  let (tanks, flag, scores, out) := st
  match tanks[i]? with
  | none => (tanks, flag, scores, out)
  | some t =>
    let t' := Tank.try_grab_flag in_range t flag
    let tanks' := tanks.set i t'
    if t'.has_won then
      let scores' := scores.set i (scores.getD i 0 + 1)
      let (tanks'', flag') := reset_game tanks' flag
      (tanks'', flag', scores', out ++ print_score scores')
    else
      (tanks', flag, scores, out)

/-- The whole flag-grab/win-check phase of `ctf.update` (the loop over
every tank in list order), together with the `return False` that ends
`update` — a win never terminates the loop. -/
def update_win_phase (in_range : ℚ × ℚ → ℚ × ℚ → Bool) (tanks : List Tank)
    (flag : GameFlag) (scores : List Nat) :
    (List Tank × GameFlag × List Nat × List String) × Bool :=
  ((List.range tanks.length).foldl (fun st i => win_check_step in_range i st)
    (tanks, flag, scores, []), false)

/-- Claim C3: each tick, for every tank in list order, `ctf.update` first
attempts a flag grab and then checks the win condition on the updated
tank; when that tank has won, its score is incremented by exactly 1 while
every other tank's score is unchanged, one line per tank is appended to
the output in tank order in the form `Player <1-based position>: <score>`,
every tank is respawned and the flag is respawned; when it has not won,
scores, flag and output are untouched; and the update never signals
termination on a win (`update` returns `False`). -/
theorem C3_win_handling (in_range : ℚ × ℚ → ℚ × ℚ → Bool) (tanks : List Tank)
    (flag : GameFlag) (scores : List Nat) (out : List String) (i : Nat) (t : Tank)
    (ht : tanks[i]? = some t) (hi : i < scores.length) :
    ((Tank.try_grab_flag in_range t flag).has_won = true →
      ∃ (tanks' : List Tank) (flag' : GameFlag) (scores' : List Nat)
        (out' : List String),
        win_check_step in_range i (tanks, flag, scores, out) =
          (tanks', flag', scores', out') ∧
        scores'.getD i 0 = scores.getD i 0 + 1 ∧
        (∀ j, j ≠ i → scores'.getD j 0 = scores.getD j 0) ∧
        (∀ (j : Nat) (u : Tank), tanks'[j]? = some u → u.pos = u.start_position ∧
          u.carrying_flag = false ∧ u.accel = 0 ∧ u.turn = 0) ∧
        flag'.pos = flag.start ∧
        out' = out ++ print_score scores') ∧
    ((Tank.try_grab_flag in_range t flag).has_won = false →
      win_check_step in_range i (tanks, flag, scores, out) =
        (tanks.set i (Tank.try_grab_flag in_range t flag), flag, scores, out)) ∧
    (∀ scoresAll : List Nat, (print_score scoresAll).length = scoresAll.length ∧
      ∀ j, (print_score scoresAll)[j]? = (scoresAll[j]?).map
        (fun sc => "Player " ++ toString (j + 1) ++ ": " ++ toString sc)) ∧
    (∀ tanksAll flagAll scoresAll,
      (update_win_phase in_range tanksAll flagAll scoresAll).2 = false) := by
  refine ⟨?_, ?_, ?_, fun _ _ _ => rfl⟩
  · intro hwin
    refine ⟨(tanks.set i (Tank.try_grab_flag in_range t flag)).map Tank.respawn,
      flag.respawn, scores.set i (scores.getD i 0 + 1),
      out ++ print_score (scores.set i (scores.getD i 0 + 1)), ?_, ?_, ?_, ?_, rfl, rfl⟩
    · simp only [win_check_step, ht, hwin, if_pos, reset_game]
    · simp [List.getD_eq_getElem?_getD, List.getElem?_set_self', hi]
    · intro j hj
      simp [List.getD_eq_getElem?_getD, List.getElem?_set_ne (Ne.symm hj)]
    · intro j u hu
      rw [List.getElem?_map] at hu
      obtain ⟨v, -, rfl⟩ := Option.map_eq_some'.mp hu
      simp [Tank.respawn]
  · intro hlose
    simp only [win_check_step, ht, hlose]
    simp
  · intro scoresAll
    constructor
    · simp [print_score]
    · intro j
      simp only [print_score, List.getElem?_map]
      rw [List.getElem?_enum]
      cases scoresAll[j]? <;> simp

/-- A tank standing on its own spawn tile, not yet carrying the flag. -/
def w_tank : Tank :=
  { start_position := (0, 0), pos := (0, 0), carrying_flag := false,
    accel := 0, turn := 0 }

/-- A second tank away from home. -/
def w_tank2 : Tank :=
  { start_position := (4, 0), pos := (2, 2), carrying_flag := false,
    accel := 0, turn := 0 }

/-- A flag lying on the first tank's tile. -/
def w_flag : GameFlag := { pos := (0, 0), start := (3, 3) }

/-- Witness for C3: with the flag in grab range of tank 0 on its home
tile, the win branch fires and tank 0's score goes from 3 to 4. -/
theorem C3_win_handling_witness :
    ([w_tank, w_tank2] : List Tank)[0]? = some w_tank ∧
    0 < ([3, 5] : List Nat).length ∧
    (Tank.try_grab_flag (fun _ _ => true) w_tank w_flag).has_won = true ∧
    ∃ tanks' flag' scores' out',
      win_check_step (fun _ _ => true) 0 ([w_tank, w_tank2], w_flag, [3, 5], []) =
        (tanks', flag', scores', out') ∧ scores'.getD 0 0 = 4 := by
  have hwon : (Tank.try_grab_flag (fun _ _ => true) w_tank w_flag).has_won = true := by
    simp [Tank.try_grab_flag, Tank.has_won, tile_of, python_int, w_tank, w_flag]
  refine ⟨rfl, by decide, hwon, ?_⟩
  obtain ⟨tanks', flag', scores', out', heq, hsc, -⟩ :=
    (C3_win_handling (fun _ _ => true) [w_tank, w_tank2] w_flag [3, 5] [] 0 w_tank
      rfl (by decide)).1 hwon
  exact ⟨tanks', flag', scores', out', heq, by simpa using hsc⟩

/-! ## Collision handlers (game_setup.py)

The physics space and the shared entity set are modelled as lists of
object identifiers; `Bullet.remove`/`Box.remove` (defined in
`gameobjects.py`, spec: "detaches its shape/body from the physics
simulation") are modelled as removal of the object's identifier from the
space list. -/

/-- The inner `collision_handler` of `add_bullet_tank_collision_handler`:
respawn the struck tank, remove the bullet from the simulation, remove it
from the entity set when still present, and return `False`. -/
def bullet_tank_collision (b : Nat) (t : Tank) (space objs : List Nat) :
    Tank × List Nat × List Nat × Bool :=
  (t.respawn, space.erase b, if b ∈ objs then objs.erase b else objs, false)

/-- The inner `collision_handler` of
`add_bullet_wood_box_collision_handler`: remove the box then the bullet
from both the simulation and (when present) the entity set; return
`False`. -/
def bullet_wood_box_collision (b box : Nat) (space objs : List Nat) :
    List Nat × List Nat × Bool :=
  let space1 := space.erase box
  let objs1 := if box ∈ objs then objs.erase box else objs
  (space1.erase b, if b ∈ objs1 then objs1.erase b else objs1, false)

/-- The inner `collision_handler` of `add_bullet_other_collision_handler`:
remove only the bullet; return `False`. -/
def bullet_other_collision (b : Nat) (space objs : List Nat) :
    List Nat × List Nat × Bool :=
  (space.erase b, if b ∈ objs then objs.erase b else objs, false)

lemma count_erase_le (l : List Nat) (a b : Nat) :
    (l.erase a).count b ≤ l.count b := by
  rw [List.count_erase]
  split <;> omega

lemma not_mem_erase_of_count_le_one {l : List Nat} {b : Nat}
    (h : l.count b ≤ 1) : b ∉ l.erase b := by
  rw [← List.count_pos_iff, List.count_erase_self]
  omega

lemma not_mem_guarded_erase {l : List Nat} {b : Nat} (h : l.count b ≤ 1) :
    b ∉ (if b ∈ l then l.erase b else l) := by
  by_cases hb : b ∈ l
  · rw [if_pos hb]
    exact not_mem_erase_of_count_le_one h
  · rw [if_neg hb]
    exact hb

lemma not_mem_erase_other {l : List Nat} {x a : Nat} (h : x ∉ l) : x ∉ l.erase a :=
  fun hx => h (List.mem_of_mem_erase hx)

lemma not_mem_guarded_erase_other {l : List Nat} {x a : Nat} (h : x ∉ l) :
    x ∉ (if a ∈ l then l.erase a else l) := by
  by_cases ha : a ∈ l
  · rw [if_pos ha]
    exact not_mem_erase_other h
  · rwa [if_neg ha]

/-- Claim C5: each collision handler returns `False` (suppressing the
engine's default response) and removes the bullet from both the
simulation and the shared entity set, the entity-set removal being
guarded by a presence check; processing the same bullet a second time in
one physics step is a no-op (the handler is idempotent).  The
bullet-vs-tank rule additionally respawns the struck tank, the
bullet-vs-wood-box rule removes the box from simulation and entity set,
and the default rule touches nothing but the bullet. -/
theorem C5_collision_handlers (b box : Nat) (t : Tank) (space objs : List Nat)
    (hsp : space.count b ≤ 1) (hob : objs.count b ≤ 1)
    (hspx : space.count box ≤ 1) (hobx : objs.count box ≤ 1) :
    ((bullet_tank_collision b t space objs).2.2.2 = false ∧
      (bullet_wood_box_collision b box space objs).2.2 = false ∧
      (bullet_other_collision b space objs).2.2 = false) ∧
    (b ∉ (bullet_tank_collision b t space objs).2.1 ∧
      b ∉ (bullet_tank_collision b t space objs).2.2.1 ∧
      b ∉ (bullet_wood_box_collision b box space objs).1 ∧
      b ∉ (bullet_wood_box_collision b box space objs).2.1 ∧
      b ∉ (bullet_other_collision b space objs).1 ∧
      b ∉ (bullet_other_collision b space objs).2.1) ∧
    (bullet_tank_collision b (bullet_tank_collision b t space objs).1
        (bullet_tank_collision b t space objs).2.1
        (bullet_tank_collision b t space objs).2.2.1 =
      bullet_tank_collision b t space objs ∧
      bullet_wood_box_collision b box (bullet_wood_box_collision b box space objs).1
        (bullet_wood_box_collision b box space objs).2.1 =
      bullet_wood_box_collision b box space objs ∧
      bullet_other_collision b (bullet_other_collision b space objs).1
        (bullet_other_collision b space objs).2.1 =
      bullet_other_collision b space objs) ∧
    ((bullet_tank_collision b t space objs).1 = t.respawn ∧
      (bullet_tank_collision b t space objs).1.pos = t.start_position ∧
      (bullet_tank_collision b t space objs).1.carrying_flag = false) ∧
    (box ∉ (bullet_wood_box_collision b box space objs).1 ∧
      box ∉ (bullet_wood_box_collision b box space objs).2.1) ∧
    (∀ x, x ≠ b →
      ((x ∈ (bullet_other_collision b space objs).1 ↔ x ∈ space) ∧
        (x ∈ (bullet_other_collision b space objs).2.1 ↔ x ∈ objs))) := by
  have hb_sp : b ∉ space.erase b := not_mem_erase_of_count_le_one hsp
  have hb_ob : b ∉ (if b ∈ objs then objs.erase b else objs) :=
    not_mem_guarded_erase hob
  refine ⟨⟨rfl, rfl, rfl⟩, ⟨hb_sp, hb_ob, ?_, ?_, hb_sp, hb_ob⟩, ⟨?_, ?_, ?_⟩,
    ⟨rfl, rfl, rfl⟩, ⟨?_, ?_⟩, ?_⟩
  · -- bullet absent from the simulation after the wood-box handler
    have : (space.erase box).count b ≤ 1 :=
      le_trans (count_erase_le _ _ _) hsp
    exact not_mem_erase_of_count_le_one this
  · -- bullet absent from the entity set after the wood-box handler
    have : (if box ∈ objs then objs.erase box else objs).count b ≤ 1 := by
      by_cases hx : box ∈ objs
      · rw [if_pos hx]
        exact le_trans (count_erase_le _ _ _) hob
      · rwa [if_neg hx]
    exact not_mem_guarded_erase this
  · -- bullet-vs-tank handler is idempotent
    unfold bullet_tank_collision
    simp only [Prod.mk.injEq]
    refine ⟨?_, ?_, ?_, trivial⟩
    · simp [Tank.respawn]
    · exact List.erase_of_not_mem hb_sp
    · rw [if_neg hb_ob]
  · -- bullet-vs-wood-box handler is idempotent
    unfold bullet_wood_box_collision
    simp only [Prod.mk.injEq]
    have hbox_sp1 : box ∉ (space.erase box).erase b :=
      not_mem_erase_other (not_mem_erase_of_count_le_one hspx)
    have hbox_ob1 : box ∉ (if box ∈ objs then objs.erase box else objs) :=
      not_mem_guarded_erase hobx
    have hb_sp1 : b ∉ (space.erase box).erase b := by
      have : (space.erase box).count b ≤ 1 :=
        le_trans (count_erase_le _ _ _) hsp
      exact not_mem_erase_of_count_le_one this
    have hb_ob1 : b ∉ (if b ∈ (if box ∈ objs then objs.erase box else objs) then
        (if box ∈ objs then objs.erase box else objs).erase b
      else (if box ∈ objs then objs.erase box else objs)) := by
      apply not_mem_guarded_erase
      by_cases hx : box ∈ objs
      · rw [if_pos hx]
        exact le_trans (count_erase_le _ _ _) hob
      · rwa [if_neg hx]
    refine ⟨?_, ?_, trivial⟩
    · rw [List.erase_of_not_mem hbox_sp1, List.erase_of_not_mem hb_sp1]
    · rw [if_neg (not_mem_guarded_erase_other hbox_ob1), if_neg hb_ob1]
  · -- default handler is idempotent
    unfold bullet_other_collision
    simp only [Prod.mk.injEq]
    refine ⟨List.erase_of_not_mem hb_sp, ?_, trivial⟩
    rw [if_neg hb_ob]
  · -- the wood box is gone from the simulation
    exact not_mem_erase_other (not_mem_erase_of_count_le_one hspx)
  · -- the wood box is gone from the entity set
    exact not_mem_guarded_erase_other (not_mem_guarded_erase hobx)
  · -- the default handler touches nothing but the bullet
    intro x hx
    constructor
    · exact List.mem_erase_of_ne hx
    · by_cases hb : b ∈ objs
      · simp only [bullet_other_collision, if_pos hb]
        exact List.mem_erase_of_ne hx
      · simp only [bullet_other_collision, if_neg hb]

/-- Witness for C5 at concrete identifier lists. -/
theorem C5_collision_handlers_witness :
    (([0, 1, 5] : List Nat).count 0 ≤ 1 ∧ ([0, 1, 5] : List Nat).count 1 ≤ 1) ∧
    (bullet_tank_collision 0 w_tank2 [0, 1, 5] [0, 1, 5]).2.2.2 = false ∧
    (0 : Nat) ∉ (bullet_tank_collision 0 w_tank2 [0, 1, 5] [0, 1, 5]).2.1 := by
  refine ⟨⟨by decide, by decide⟩, ?_, ?_⟩
  · exact (C5_collision_handlers 0 1 w_tank2 [0, 1, 5] [0, 1, 5]
      (by decide) (by decide) (by decide) (by decide)).1.1
  · exact (C5_collision_handlers 0 1 w_tank2 [0, 1, 5] [0, 1, 5]
      (by decide) (by decide) (by decide) (by decide)).2.1.1

/-! ## World setup and input routing (game_setup.py / ctf.py) -/

/-- The owning game object attached to a physics shape (`shape.parent`)
as far as `Ai.maybe_shoot` inspects it: a tank (with its identity), a box
(with its destructibility), or some other object. -/
inductive HitOwner where
  | tankObj (i : Nat)
  | boxObj (destructible : Bool)
  | otherObj
  deriving DecidableEq

/-- A live game object in the shared entity set, reduced to what the
ordering/rendering claims inspect (sprite identifiers stand in for the
loaded images). -/
inductive GObj where
  | base (x y : ℚ) (img : Nat)
  | box (x y : Int) (btype : Int)
  | tankO (i : Nat)
  | flagO
  | bulletO (id : Nat)
  deriving DecidableEq

/-- `game_setup.create_bases`: one decorative base per spawn descriptor,
zipped with the base sprites. -/
def create_bases (positions : List (ℚ × ℚ × ℚ)) (baseImages : List Nat) :
    List GObj :=
  (positions.zip baseImages).map (fun pi => GObj.base pi.fst.fst pi.fst.snd.fst pi.snd)

/-- `game_setup.create_boxes`: for every tile in row-major order whose
obstacle code is nonzero, one box of that code. -/
def create_boxes (m : Map) : List GObj :=
  (List.range m.height).flatMap (fun y =>
    (List.range m.width).filterMap (fun x =>
      if m.boxAt x y ≠ 0 then some (GObj.box x y (m.boxAt x y)) else none))

/-- `game_setup.create_tanks`: one tank per spawn descriptor zipped with
the tank sprites; the first `player_amount` tanks stay human-controlled,
every later one gets an AI controller (returned as tank indices). -/
def create_tanks (positions : List (ℚ × ℚ × ℚ)) (tankImages : List Nat)
    (player_amount : Nat) : List Tank × List Nat :=
  let r := (positions.zip tankImages).foldl
    (fun (acc : List Tank × List Nat × Nat) p =>
      let (tanks, ais, pa) := acc
      let tank : Tank :=
        { start_position := (p.fst.fst, p.fst.snd.fst),
          pos := (p.fst.fst, p.fst.snd.fst), carrying_flag := false,
          accel := 0, turn := 0 }
      if pa = 0 then (tanks ++ [tank], ais ++ [tanks.length], pa)
      else (tanks ++ [tank], ais, pa - 1))
    ([], [], player_amount)
  (r.1, r.2.1)

/-- `game_setup.create_game_objects`: bases, then boxes, then tanks, then
the flag, in one ordered entity list; returns the list, the tanks, the
flag and the AI-controlled tank indices. -/
def create_game_objects (m : Map) (player_amount : Nat)
    (tankImages baseImages : List Nat) :
    List GObj × List Tank × GameFlag × List Nat :=
  let bases := create_bases m.start_positions baseImages
  let withBoxes := bases ++ create_boxes m
  let tanksAis := create_tanks m.start_positions tankImages player_amount
  let withTanks := withBoxes ++ (List.range tanksAis.1.length).map GObj.tankO
  (withTanks ++ [GObj.flagO], tanksAis.1,
    { pos := m.flag_position, start := m.flag_position }, tanksAis.2)

/-- A static border segment of `game_setup.create_borders`; border
segments are created without an owning game object (`parent` stays
absent). -/
structure PSegment where
  p1 : ℚ × ℚ
  p2 : ℚ × ℚ
  radius : ℚ
  parent : Option HitOwner

/-- `game_setup.create_borders`: four static segments of radius 0.01
around the arena rectangle, none carrying an owning object. -/
def create_borders (width height : ℚ) : List PSegment :=
  [{ p1 := (0, 0), p2 := (width, 0), radius := 1/100, parent := none },
   { p1 := (width, 0), p2 := (width, height), radius := 1/100, parent := none },
   { p1 := (0, height), p2 := (width, height), radius := 1/100, parent := none },
   { p1 := (0, 0), p2 := (0, height), radius := 1/100, parent := none }]

/-- `ctf.CONTROLS`: the two local control schemes (arrow keys + Enter;
WASD + Space), with pygame key codes. -/
structure Control where
  up : Nat
  down : Nat
  left : Nat
  right : Nat
  shoot : Nat

/-- The two bundled control schemes. -/
def CONTROLS : List Control :=
  [{ up := 273, down := 274, left := 276, right := 275, shoot := 13 },
   { up := 119, down := 115, left := 97, right := 100, shoot := 32 }]

/-- The per-player body of `ctf.handle_key_down_event`'s
`for player, control in zip(players, CONTROLS):` loop. -/
def key_down_step (shoot : Tank → Option Nat) (key : Nat)
    (acc : List Tank × List GObj) (pc : Tank × Control) : List Tank × List GObj :=
  let (ps, objs) := acc
  let (p, c) := pc
  if key = c.up then (ps ++ [p.accelerate], objs)
  else if key = c.down then (ps ++ [p.decelerate], objs)
  else if key = c.left then (ps ++ [p.turn_left], objs)
  else if key = c.right then (ps ++ [p.turn_right], objs)
  else if key = c.shoot then
    match shoot p with
    | some bid => (ps ++ [p], objs ++ [GObj.bulletO bid])
    | none => (ps ++ [p], objs)
  else (ps ++ [p], objs)

/-- `ctf.handle_key_down_event`: raises `ValueError` when more players
than control schemes were given, otherwise routes the key to each
player's control scheme, appending any produced bullet to the entity
set (`Tank.shoot` — internal to `gameobjects.py` — is the `shoot`
oracle). -/
def handle_key_down_event (shoot : Tank → Option Nat) (key : Nat)
    (players : List Tank) (game_objects : List GObj) :
    Except String (List Tank × List GObj) :=
  if players.length > CONTROLS.length then
    Except.error "Too many players where given, dont have enough controls for them all."
  else
    Except.ok ((players.zip CONTROLS).foldl (key_down_step shoot key)
      ([], game_objects))

/-- `ctf.parse_cli_args` + `player_amount = 2 if ... else 1` in
`ctf.main`. -/
def parse_player_amount (hot_multiplayer : Bool) : Nat :=
  if hot_multiplayer then 2 else 1

/-- The setup section of `ctf.main` (space, entity set, scores,
collision handlers, borders): it performs no player-count validation and
has no raising path whatsoever. -/
def main_startup (m : Map) (player_amount : Nat) (tankImages baseImages : List Nat) :
    Except String ((List GObj × List Tank × GameFlag × List Nat) ×
      List Nat × List PSegment) :=
  let created := create_game_objects m player_amount tankImages baseImages
  let scores := List.replicate created.2.1.length 0
  let borders := create_borders (m.width : ℚ) (m.height : ℚ)
  Except.ok (created, scores, borders)

/-- A rendering command of `ctf.draw`. -/
inductive DrawCmd where
  | background
  | blit (g : GObj)
  deriving DecidableEq

/-- `ctf.draw`: blit the background, then every entity in entity-set
order, then flip. -/
def draw (game_objects : List GObj) : List DrawCmd :=
  DrawCmd.background :: game_objects.map DrawCmd.blit

lemma key_down_step_objs (shoot : Tank → Option Nat) (key : Nat)
    (ps : List Tank) (objs : List GObj) (p : Tank) (c : Control) :
    (key_down_step shoot key (ps, objs) (p, c)).2 = objs ∨
    ∃ bid, (key_down_step shoot key (ps, objs) (p, c)).2 = objs ++ [GObj.bulletO bid] := by
  unfold key_down_step
  dsimp only
  split_ifs <;> try exact Or.inl rfl
  cases hs : shoot p
  · exact Or.inl rfl
  · exact Or.inr ⟨_, rfl⟩

lemma key_down_fold_objs (shoot : Tank → Option Nat) (key : Nat) :
    ∀ (l : List (Tank × Control)) (ps : List Tank) (objs : List GObj),
      ∃ bullets : List GObj,
        (l.foldl (key_down_step shoot key) (ps, objs)).2 = objs ++ bullets ∧
        ∀ x ∈ bullets, ∃ i, x = GObj.bulletO i
  | [], ps, objs => ⟨[], by simp, by simp⟩
  | pc :: rest, ps, objs => by
    obtain ⟨p, c⟩ := pc
    rw [List.foldl_cons]
    obtain ⟨bullets, hb, hball⟩ := key_down_fold_objs shoot key rest
      (key_down_step shoot key (ps, objs) (p, c)).1
      (key_down_step shoot key (ps, objs) (p, c)).2
    rw [Prod.mk.eta] at hb
    obtain h | ⟨bid, h⟩ := key_down_step_objs shoot key ps objs p c
    · exact ⟨bullets, by rw [hb, h], hball⟩
    · refine ⟨GObj.bulletO bid :: bullets, ?_, ?_⟩
      · rw [hb, h]
        simp
      · intro x hx
        rcases List.mem_cons.mp hx with rfl | hx
        · exact ⟨bid, rfl⟩
        · exact hball x hx

/-- Claim C8 (amended): the game loop owns one ordered entity list whose
setup order is base markers and boxes first, tanks next, then the flag —
so the flag is the last element at setup — and rendering blits the
background and then every entity in list order; bullets, however, are
appended to the end of the list as they are created (after the flag), so
the flag is the last element only until the first bullet exists. -/
theorem C8_entity_order (m : Map) (player_amount : Nat)
    (tankImages baseImages : List Nat) :
    (create_game_objects m player_amount tankImages baseImages).1 =
      create_bases m.start_positions baseImages ++ create_boxes m ++
        (List.range
          (create_game_objects m player_amount tankImages baseImages).2.1.length).map
          GObj.tankO ++ [GObj.flagO] ∧
    (create_game_objects m player_amount tankImages baseImages).1.getLast? =
      some GObj.flagO ∧
    (∀ objs : List GObj, (draw objs).head? = some DrawCmd.background ∧
      (draw objs).tail = objs.map DrawCmd.blit) ∧
    (∀ (shoot : Tank → Option Nat) (key : Nat) (players ps' : List Tank)
      (objs objs' : List GObj),
      handle_key_down_event shoot key players objs = Except.ok (ps', objs') →
      ∃ bullets : List GObj, objs' = objs ++ bullets ∧
        ∀ x ∈ bullets, ∃ i, x = GObj.bulletO i) := by
  refine ⟨rfl, ?_, fun objs => ⟨rfl, rfl⟩, ?_⟩
  · show ((create_bases m.start_positions baseImages ++ create_boxes m ++
      (List.range (create_tanks m.start_positions tankImages player_amount).1.length).map
        GObj.tankO) ++ [GObj.flagO]).getLast? = some GObj.flagO
    rw [List.getLast?_concat]
  · intro shoot key players ps' objs objs' h
    unfold handle_key_down_event at h
    by_cases hg : players.length > CONTROLS.length
    · rw [if_pos hg] at h
      exact absurd h (by simp)
    · rw [if_neg hg] at h
      obtain ⟨bullets, hb, hball⟩ :=
        key_down_fold_objs shoot key (players.zip CONTROLS) [] objs
      refine ⟨bullets, ?_, hball⟩
      have h2 : ((players.zip CONTROLS).foldl (key_down_step shoot key)
          ([], objs)) = (ps', objs') := by
        exact Except.ok.inj h
      rw [← hb, h2]

/-- A tiny concrete map with one spawn and no obstacles. -/
def c8map : Map :=
  { width := 2, height := 1, boxAt := fun _ _ => 0,
    start_positions := [(0, 0, 0)], flag_position := (1, 0) }

/-- Counterexample to Claim C8 as stated: at setup the flag is the last
entity, but after the human player's shoot key produces a bullet, the
bullet (appended by `handle_key_down_event`) is the last element of the
entity set — not the flag. -/
theorem C8_counterexample :
    (create_game_objects c8map 1 [7] [3]).1.getLast? = some GObj.flagO ∧
    ((handle_key_down_event (fun _ => some 0) 13
        (create_game_objects c8map 1 [7] [3]).2.1
        (create_game_objects c8map 1 [7] [3]).1).map
      (fun r => r.2.getLast?)) = Except.ok (some (GObj.bulletO 0)) ∧
    GObj.bulletO 0 ≠ GObj.flagO :=
  ⟨rfl, rfl, by decide⟩

/-- Witness for C8: a concrete key-down producing a bullet appends
exactly that bullet at the end of the entity set. -/
theorem C8_entity_order_witness :
    handle_key_down_event (fun _ => some 0) 13
        (create_game_objects c8map 1 [7] [3]).2.1
        (create_game_objects c8map 1 [7] [3]).1 =
      Except.ok ((create_game_objects c8map 1 [7] [3]).2.1,
        (create_game_objects c8map 1 [7] [3]).1 ++ [GObj.bulletO 0]) ∧
    ∃ bullets : List GObj,
      (create_game_objects c8map 1 [7] [3]).1 ++ [GObj.bulletO 0] =
        (create_game_objects c8map 1 [7] [3]).1 ++ bullets ∧
      ∀ x ∈ bullets, ∃ i, x = GObj.bulletO i := by
  have heq : handle_key_down_event (fun _ => some 0) 13
      (create_game_objects c8map 1 [7] [3]).2.1
      (create_game_objects c8map 1 [7] [3]).1 =
      Except.ok ((create_game_objects c8map 1 [7] [3]).2.1,
        (create_game_objects c8map 1 [7] [3]).1 ++ [GObj.bulletO 0]) := rfl
  exact ⟨heq, (C8_entity_order c8map 1 [7] [3]).2.2.2 (fun _ => some 0) 13
    (create_game_objects c8map 1 [7] [3]).2.1
    (create_game_objects c8map 1 [7] [3]).2.1
    (create_game_objects c8map 1 [7] [3]).1
    ((create_game_objects c8map 1 [7] [3]).1 ++ [GObj.bulletO 0]) heq⟩

/-- Claim C6 (amended): the too-many-players check lives in the key-event
handlers, not in startup: `handle_key_down_event` raises the
`ValueError` whenever it is given more players than control schemes
(two), while the `main` setup sequence performs no player-count check and
never raises, and the command line configures at most two players. -/
theorem C6_player_limit :
    (∀ (shoot : Tank → Option Nat) (key : Nat) (players : List Tank)
      (objs : List GObj),
      players.length > CONTROLS.length →
      handle_key_down_event shoot key players objs = Except.error
        "Too many players where given, dont have enough controls for them all.") ∧
    (∀ (m : Map) (pa : Nat) (ti bi : List Nat),
      (main_startup m pa ti bi).toOption.isSome = true) ∧
    (∀ hot : Bool, parse_player_amount hot ≤ CONTROLS.length) := by
  refine ⟨?_, fun _ _ _ _ => rfl, ?_⟩
  · intro shoot key players objs h
    unfold handle_key_down_event
    rw [if_pos h]
  · intro hot
    cases hot <;> simp [parse_player_amount, CONTROLS]

/-- Counterexample to Claim C6 as stated: configuring three human players
(more than the two control schemes) does not abort startup — the `main`
setup sequence completes without any configuration error. -/
theorem C6_counterexample :
    CONTROLS.length < 3 ∧
    (main_startup c8map 3 [7] [3]).toOption.isSome = true :=
  ⟨by decide, rfl⟩

/-- Witness for C6: with three concrete players, the key-down handler
raises the `ValueError`. -/
theorem C6_player_limit_witness :
    ([w_tank, w_tank, w_tank2] : List Tank).length > CONTROLS.length ∧
    handle_key_down_event (fun _ => none) 0 [w_tank, w_tank, w_tank2] [] =
      Except.error
        "Too many players where given, dont have enough controls for them all." :=
  ⟨by decide, C6_player_limit.1 (fun _ => none) 0 [w_tank, w_tank, w_tank2] []
    (by decide)⟩

/-! ## `Ai.maybe_shoot` (ai.py)

The pymunk vector operations (`rotation_vector`, `rotated`,
`scale_to_length`) are modelled over `ℝ × ℝ`; the physics space's
`segment_query_first` is an oracle parameter.  `Tank.shoot`'s result
(internal to `gameobjects.py`, subject to its firing policy) is the
`shoot` oracle.  The second component of the result records whether
`Tank.shoot` was invoked. -/

/-- `pymunk.Body.rotation_vector`: the unit vector at the body's angle. -/
noncomputable def rotation_vector (angle : ℝ) : ℝ × ℝ :=
  (Real.cos angle, Real.sin angle)

/-- `pymunk.Vec2d.rotated`. -/
noncomputable def rotated (v : ℝ × ℝ) (phi : ℝ) : ℝ × ℝ :=
  (v.1 * Real.cos phi - v.2 * Real.sin phi,
   v.1 * Real.sin phi + v.2 * Real.cos phi)

/-- `pymunk.Vec2d.length`. -/
noncomputable def vec_length (v : ℝ × ℝ) : ℝ :=
  Real.sqrt (v.1 ^ 2 + v.2 ^ 2)

/-- `pymunk.Vec2d.scale_to_length`: rescale to the given length. -/
noncomputable def scale_to_length (v : ℝ × ℝ) (len : ℝ) : ℝ × ℝ :=
  (v.1 * len / vec_length v, v.2 * len / vec_length v)

/-- The ray direction of `Ai.maybe_shoot`:
`self.tank.body.rotation_vector.rotated(math.pi / 2)`. -/
noncomputable def shoot_direction (angle : ℝ) : ℝ × ℝ :=
  rotated (rotation_vector angle) (Real.pi / 2)

/-- The result of a `segment_query_first` as far as `maybe_shoot`
inspects it: the shape's owning object, when one is attached
(`hasattr(hit.shape, 'parent')`). -/
structure SegmentHit where
  parent : Option HitOwner
  deriving DecidableEq

/-- `Ai.maybe_shoot`: cast the ray and fire exactly when the struck
shape's owner is a tank or a destructible box.  Returns the bullet
produced (if any) and whether `Tank.shoot` was invoked. -/
noncomputable def maybe_shoot
    (space_query : ℝ × ℝ → ℝ × ℝ → ℝ → Option SegmentHit)
    (shoot : Option Nat) (body_position : ℝ × ℝ) (body_angle : ℝ)
    (max_x max_y : ℝ) : Option Nat × Bool :=
  let direction := shoot_direction body_angle
  let start_offset := scale_to_length direction (1 / 2)
  let end_offset := scale_to_length direction (max_x + max_y)
  let start := (body_position.1 + start_offset.1, body_position.2 + start_offset.2)
  let stop := (body_position.1 + end_offset.1, body_position.2 + end_offset.2)
  match space_query start stop 0 with
  | none => (none, false)
  | some hit =>
    match hit.parent with
    | none => (none, false)
    | some (HitOwner.tankObj _) => (shoot, true)
    | some (HitOwner.boxObj d) => if d then (shoot, true) else (none, false)
    | some HitOwner.otherObj => (none, false)

/-- The object-set effect of `Ai.decide`: a produced bullet is appended
to the shared entity set. -/
def ai_decide_objects (game_objects_list : List GObj) (bullet : Option Nat) :
    List GObj :=
  match bullet with
  | some b => game_objects_list ++ [GObj.bulletO b]
  | none => game_objects_list

/-- Whether the code fires at a query outcome: the struck shape carries
an owner that is a tank (any tank) or a destructible box. -/
def hit_fires (hit : Option SegmentHit) : Bool :=
  match hit with
  | some ⟨some (HitOwner.tankObj _)⟩ => true
  | some ⟨some (HitOwner.boxObj d)⟩ => d
  | _ => false

/-- The firing condition as the claim states it: the struck shape's
owner is *another* tank (not the controlled one) or a destructible
box. -/
def claimed_fire_condition (self_tank : Nat) (hit : Option SegmentHit) : Bool :=
  match hit with
  | some ⟨some (HitOwner.tankObj i)⟩ => decide (i ≠ self_tank)
  | some ⟨some (HitOwner.boxObj d)⟩ => d
  | _ => false

/-- The claim's ray start: the tank's position offset by half a world
unit along the perpendicular-rotated rotation vector. -/
noncomputable def claimed_ray_start (pos : ℝ × ℝ) (angle : ℝ) : ℝ × ℝ :=
  (pos.1 + (1 / 2) * (shoot_direction angle).1,
   pos.2 + (1 / 2) * (shoot_direction angle).2)

/-- The claim's ray end: the tank's position offset by
`(map width − 1) + (map height − 1)` world units along the same
direction. -/
noncomputable def claimed_ray_end (pos : ℝ × ℝ) (angle max_x max_y : ℝ) : ℝ × ℝ :=
  (pos.1 + (max_x + max_y) * (shoot_direction angle).1,
   pos.2 + (max_x + max_y) * (shoot_direction angle).2)

lemma shoot_direction_length (angle : ℝ) : vec_length (shoot_direction angle) = 1 := by
  unfold shoot_direction vec_length rotated rotation_vector
  have h1 := Real.sin_sq_add_cos_sq angle
  have h2 := Real.sin_sq_add_cos_sq (Real.pi / 2)
  have key : (Real.cos angle * Real.cos (Real.pi / 2) -
      Real.sin angle * Real.sin (Real.pi / 2)) ^ 2 +
      (Real.cos angle * Real.sin (Real.pi / 2) +
      Real.sin angle * Real.cos (Real.pi / 2)) ^ 2 = 1 := by
    nlinarith [h1, h2]
  simp only [key]
  exact Real.sqrt_one

lemma scale_to_length_shoot_direction (angle len : ℝ) :
    scale_to_length (shoot_direction angle) len =
      (len * (shoot_direction angle).1, len * (shoot_direction angle).2) := by
  unfold scale_to_length
  rw [shoot_direction_length]
  simp only [div_one, Prod.mk.injEq]
  exact ⟨mul_comm _ _, mul_comm _ _⟩

/-- Characterization of `maybe_shoot`: it queries the space along the
claimed ray and returns the `Tank.shoot` result exactly when the outcome
fires. -/
lemma maybe_shoot_eq (space_query : ℝ × ℝ → ℝ × ℝ → ℝ → Option SegmentHit)
    (shoot : Option Nat) (pos : ℝ × ℝ) (angle max_x max_y : ℝ) :
    maybe_shoot space_query shoot pos angle max_x max_y =
      (if hit_fires (space_query (claimed_ray_start pos angle)
          (claimed_ray_end pos angle max_x max_y) 0) then shoot else none,
        hit_fires (space_query (claimed_ray_start pos angle)
          (claimed_ray_end pos angle max_x max_y) 0)) := by
  unfold maybe_shoot claimed_ray_start claimed_ray_end
  simp only [scale_to_length_shoot_direction]
  generalize space_query _ _ _ = res
  rcases res with - | ⟨po⟩
  · rfl
  · rcases po with - | o
    · rfl
    · rcases o with i | d | -
      · rfl
      · rcases d with - | - <;> rfl
      · rfl

/-- Claim C2 (amended): `Ai.maybe_shoot` casts a ray from the tank's
position offset by half a world unit along the 90°-rotated rotation
vector to the position offset by `(map width − 1) + (map height − 1)`
world units along the same direction, querying the space with no
filtering, and `Tank.shoot` is invoked exactly when the struck shape's
owning object is a tank — any tank, including possibly the controlled
one — or a destructible box; the produced bullet, if any, is appended to
the shared object set by `Ai.decide`, and in every other case no bullet
is produced. -/
theorem C2_maybe_shoot_ray (space_query : ℝ × ℝ → ℝ × ℝ → ℝ → Option SegmentHit)
    (shoot : Option Nat) (pos : ℝ × ℝ) (angle max_x max_y : ℝ)
    (objs : List GObj) :
    maybe_shoot space_query shoot pos angle max_x max_y =
      (if hit_fires (space_query (claimed_ray_start pos angle)
          (claimed_ray_end pos angle max_x max_y) 0) then shoot else none,
        hit_fires (space_query (claimed_ray_start pos angle)
          (claimed_ray_end pos angle max_x max_y) 0)) ∧
    (∀ b, ai_decide_objects objs (some b) = objs ++ [GObj.bulletO b]) ∧
    ai_decide_objects objs none = objs :=
  ⟨maybe_shoot_eq space_query shoot pos angle max_x max_y,
    fun _ => rfl, rfl⟩

/-- Counterexample to Claim C2 as stated: when the first shape struck is
the controlled tank's own shape (owner = tank 7, the shooter itself),
the code still invokes `Tank.shoot` and produces the bullet, although
the claimed condition ("another tank or a destructible box") is false. -/
theorem C2_counterexample :
    (maybe_shoot (fun _ _ _ => some ⟨some (HitOwner.tankObj 7)⟩) (some 0)
      (0, 0) 0 2 2).2 = true ∧
    (maybe_shoot (fun _ _ _ => some ⟨some (HitOwner.tankObj 7)⟩) (some 0)
      (0, 0) 0 2 2).1 = some 0 ∧
    claimed_fire_condition 7 (some ⟨some (HitOwner.tankObj 7)⟩) = false :=
  ⟨rfl, rfl, by decide⟩

/-- Claim C10: `Ai.maybe_shoot` is total over every query outcome — a
missing hit, or a hit whose shape has no owning object (such as one of
the four border segments, which are created without an owner), produces
no bullet and no exception, and the result is always either the
`Tank.shoot` value or nothing; a bullet can only be produced when the
owner is a tank or a destructible box. -/
theorem C10_maybe_shoot_total
    (space_query : ℝ × ℝ → ℝ × ℝ → ℝ → Option SegmentHit)
    (shoot : Option Nat) (pos : ℝ × ℝ) (angle max_x max_y : ℝ) :
    ((maybe_shoot space_query shoot pos angle max_x max_y).1 = shoot ∨
      (maybe_shoot space_query shoot pos angle max_x max_y).1 = none) ∧
    (space_query (claimed_ray_start pos angle)
        (claimed_ray_end pos angle max_x max_y) 0 = none →
      maybe_shoot space_query shoot pos angle max_x max_y = (none, false)) ∧
    (∀ hit, space_query (claimed_ray_start pos angle)
        (claimed_ray_end pos angle max_x max_y) 0 = some hit →
      hit.parent = none →
      maybe_shoot space_query shoot pos angle max_x max_y = (none, false)) ∧
    (∀ b, (maybe_shoot space_query shoot pos angle max_x max_y).1 = some b →
      shoot = some b ∧ ∃ hit owner,
        space_query (claimed_ray_start pos angle)
          (claimed_ray_end pos angle max_x max_y) 0 = some hit ∧
        hit.parent = some owner ∧
        ((∃ i, owner = HitOwner.tankObj i) ∨ owner = HitOwner.boxObj true)) ∧
    (∀ (w h : ℚ), ∀ seg ∈ create_borders w h,
      maybe_shoot (fun _ _ _ => some ⟨seg.parent⟩) shoot pos angle max_x max_y =
        (none, false)) := by
  have heq := maybe_shoot_eq space_query shoot pos angle max_x max_y
  refine ⟨?_, ?_, ?_, ?_, ?_⟩
  · rw [heq]
    by_cases hf : hit_fires (space_query (claimed_ray_start pos angle)
        (claimed_ray_end pos angle max_x max_y) 0)
    · rw [if_pos hf]
      exact Or.inl rfl
    · rw [if_neg hf]
      exact Or.inr rfl
  · intro hnone
    rw [heq, hnone]
    rfl
  · intro hit hsome hpar
    rw [heq, hsome]
    obtain ⟨p⟩ := hit
    cases hpar
    rfl
  · intro b hb
    rw [heq] at hb
    by_cases hf : hit_fires (space_query (claimed_ray_start pos angle)
        (claimed_ray_end pos angle max_x max_y) 0)
    · rw [if_pos hf] at hb
      refine ⟨hb, ?_⟩
      rcases hq : space_query (claimed_ray_start pos angle)
          (claimed_ray_end pos angle max_x max_y) 0 with - | ⟨po⟩
      · rw [hq] at hf
        simp [hit_fires] at hf
      · rcases po with - | o
        · rw [hq] at hf
          simp [hit_fires] at hf
        · refine ⟨⟨some o⟩, o, rfl, rfl, ?_⟩
          rcases o with i | d | -
          · exact Or.inl ⟨i, rfl⟩
          · rw [hq] at hf
            rcases d with - | -
            · simp [hit_fires] at hf
            · exact Or.inr rfl
          · rw [hq] at hf
            simp [hit_fires] at hf
    · rw [if_neg hf] at hb
      simp at hb
  · intro w h seg hseg
    have hpar : seg.parent = none := by
      simp only [create_borders, List.mem_cons, List.not_mem_nil, or_false] at hseg
      rcases hseg with rfl | rfl | rfl | rfl <;> rfl
    rw [maybe_shoot_eq, hpar]
    rfl

/-- Witness for C10: a query that hits nothing produces no bullet. -/
theorem C10_maybe_shoot_total_witness :
    ((fun _ _ _ => (none : Option SegmentHit)) (claimed_ray_start ((0 : ℝ), (0 : ℝ)) 0)
      (claimed_ray_end ((0 : ℝ), (0 : ℝ)) 0 2 2) 0 = none) ∧
    maybe_shoot (fun _ _ _ => none) (some 5) ((0 : ℝ), (0 : ℝ)) 0 2 2 = (none, false) :=
  ⟨rfl, (C10_maybe_shoot_total (fun _ _ _ => none) (some 5) ((0 : ℝ), (0 : ℝ)) 0 2 2).2.1
    rfl⟩

/-! ## The movement state machine of `Ai.move_cycle_gen` (ai.py)

The Python generator is embedded as an explicit three-phase state
machine (path acquisition / turning / driving) stepped once per tick, as
the spec's design notes prescribe for reimplementation.  One tick's work
runs from resume point to the next `yield`. -/

/-- `math.atan2 y x`, via the complex argument. -/
noncomputable def atan2 (y x : ℝ) : ℝ := Complex.arg ⟨x, y⟩

/-- `pymunk.Vec2d.get_angle_between`: the signed angle from `v` to
`other`, `atan2(cross, dot)`. -/
noncomputable def get_angle_between (v other : ℝ × ℝ) : ℝ :=
  atan2 (v.1 * other.2 - v.2 * other.1) (v.1 * other.1 + v.2 * other.2)

/-- `pymunk.Vec2d.rotated_degrees`. -/
noncomputable def rotated_degrees (v : ℝ × ℝ) (deg : ℝ) : ℝ × ℝ :=
  rotated v (deg * Real.pi / 180)

/-- `pymunk.Vec2d.get_distance`. -/
noncomputable def get_distance (a b : ℝ × ℝ) : ℝ :=
  Real.sqrt ((a.1 - b.1) ^ 2 + (a.2 - b.2) ^ 2)

/-- `ai.MIN_ANGLE_DIF = math.radians(3)`. -/
noncomputable def MIN_ANGLE_DIF : ℝ := 3 * (Real.pi / 180)

/-- A movement or turning command issued to the controlled tank. -/
inductive TankCmd where
  | turn_left
  | turn_right
  | stop_moving
  | stop_turning
  | accelerate
  deriving DecidableEq

/-- The resume point of the `move_cycle_gen` generator: waiting to
acquire a path, turning toward the popped sub-target, or driving toward
its center (carrying the previously measured distance). -/
inductive MovePhase where
  | acquiring
  | turning (next_coord : Cell)
  | driving (next_coord : Cell) (distance : ℝ)

/-- `Ai.get_tile_of_position`: truncate both float coordinates. -/
noncomputable def get_tile_of_position (p : ℝ × ℝ) : Cell :=
  ((if 0 ≤ p.1 then ⌊p.1⌋ else ⌈p.1⌉), (if 0 ≤ p.2 then ⌊p.2⌋ else ⌈p.2⌉))

/-- The top of the `while True:` loop of `move_cycle_gen`, from path
acquisition to the first `yield`: an empty path yields immediately and
stays in acquisition; otherwise pop the first tile, issue the
appropriate turn command, and either keep turning (angle still above
tolerance, suppressing linear motion) or stop turning, accelerate and
enter the driving loop. -/
noncomputable def move_acquire_step (m : Map) (grid_pos target : Cell)
    (body_pos : ℝ × ℝ) (body_angle : ℝ) : List TankCmd × MovePhase :=
  match find_shortest_path m grid_pos target with
  | [] => ([], MovePhase.acquiring)
  | next_coord :: _ =>
    let target_vector : ℝ × ℝ :=
      ((next_coord.1 : ℝ) - (grid_pos.1 : ℝ), (next_coord.2 : ℝ) - (grid_pos.2 : ℝ))
    let current_angle := get_angle_between target_vector
      (rotated_degrees (rotation_vector body_angle) 90)
    let turn_cmds : List TankCmd :=
      if current_angle > MIN_ANGLE_DIF then [TankCmd.turn_left]
      else if current_angle < -MIN_ANGLE_DIF then [TankCmd.turn_right]
      else []
    if |current_angle| > MIN_ANGLE_DIF then
      (turn_cmds ++ [TankCmd.stop_moving], MovePhase.turning next_coord)
    else
      let target_center : ℝ × ℝ :=
        ((next_coord.1 : ℝ) + 1 / 2, (next_coord.2 : ℝ) + 1 / 2)
      let distance := get_distance target_center body_pos
      (turn_cmds ++ [TankCmd.stop_turning, TankCmd.accelerate],
        MovePhase.driving next_coord distance)

/-- One tick of the movement procedure (one resume of the generator):
returns the commands issued this tick, the next resume point, and the
(possibly refreshed) cached grid position. -/
noncomputable def move_cycle_step (m : Map) (target grid_pos : Cell)
    (body_pos : ℝ × ℝ) (body_angle : ℝ) :
    MovePhase → List TankCmd × MovePhase × Cell
  | MovePhase.acquiring =>
    let r := move_acquire_step m grid_pos target body_pos body_angle
    (r.1, r.2, grid_pos)
  | MovePhase.turning next_coord =>
    let target_vector : ℝ × ℝ :=
      ((next_coord.1 : ℝ) - (grid_pos.1 : ℝ), (next_coord.2 : ℝ) - (grid_pos.2 : ℝ))
    let current_angle := get_angle_between target_vector
      (rotated_degrees (rotation_vector body_angle) 90)
    if |current_angle| > MIN_ANGLE_DIF then
      ([TankCmd.stop_moving], MovePhase.turning next_coord, grid_pos)
    else
      let target_center : ℝ × ℝ :=
        ((next_coord.1 : ℝ) + 1 / 2, (next_coord.2 : ℝ) + 1 / 2)
      let distance := get_distance target_center body_pos
      ([TankCmd.stop_turning, TankCmd.accelerate],
        MovePhase.driving next_coord distance, grid_pos)
  | MovePhase.driving next_coord prev_distance =>
    let target_center : ℝ × ℝ :=
      ((next_coord.1 : ℝ) + 1 / 2, (next_coord.2 : ℝ) + 1 / 2)
    let distance := get_distance target_center body_pos
    if distance < prev_distance then
      ([], MovePhase.driving next_coord distance, grid_pos)
    else
      let grid' := get_tile_of_position body_pos
      let r := move_acquire_step m grid' target body_pos body_angle
      (r.1, r.2, grid')

/-- Claim C9: on any tick in which `find_shortest_path` returns an empty
path, the movement procedure issues no turning command and no driving
command (no commands at all), keeps the cached grid position, and
remains in path acquisition, retrying on the next tick; the step is a
total function, so no message or exception can surface. -/
theorem C9_empty_path_idle (m : Map) (grid_pos target : Cell)
    (body_pos : ℝ × ℝ) (body_angle : ℝ)
    (h : find_shortest_path m grid_pos target = []) :
    move_cycle_step m target grid_pos body_pos body_angle MovePhase.acquiring =
      ([], MovePhase.acquiring, grid_pos) := by
  unfold move_cycle_step move_acquire_step
  rw [h]

/-- A 1×1 arena whose single tile cannot reach the far-away objective. -/
def c9map : Map := { width := 1, height := 1, boxAt := fun _ _ => 0 }

/-- Witness for C9: on the 1×1 arena the objective `(5, 5)` is
unreachable, the BFS returns the empty path, and the movement step does
nothing and stays in acquisition. -/
theorem C9_empty_path_idle_witness :
    find_shortest_path c9map (0, 0) (5, 5) = [] ∧
    move_cycle_step c9map (5, 5) (0, 0) ((0 : ℝ), (0 : ℝ)) 0 MovePhase.acquiring =
      ([], MovePhase.acquiring, (0, 0)) :=
  ⟨by decide, C9_empty_path_idle c9map (0, 0) (5, 5) ((0 : ℝ), (0 : ℝ)) 0 (by decide)⟩
